import Mathlib

/-!
# Verification of the arikawa member-pagination client (api/member.go)

This file gives a shallow embedding of the member-listing pagination logic of
the repository's api package and proves properties of it.

The embedded functions:

* MembersAfter / membersLoop: the pagination loop of Client.MembersAfter
  (member.go lines 35-67).  The Go loop mutates `mems`, `after`, `limit` and
  calls the single-page primitive `c.membersAfter`; here the primitive is an
  abstract function FetchFn (the guild id only forms the request URL and is
  captured inside the primitive), the mutation is explicit recursion, and a
  fuel parameter bounds the number of iterations because nothing in the code
  guarantees termination.  A call log (cursor, requested size) per page call
  is threaded through so that theorems can speak about the calls made.
* membersAfterQuery: the query-parameter construction of the lowercase
  single-page primitive membersAfter (member.go lines 69-93).
* banClampDeleteDays: the DeleteDays handling of Client.Ban (member.go
  lines 299-309); the Go `*data.DeleteDays` dereference of the option.Uint
  pointer is modelled on Option Nat, with the nil dereference surfaced as
  an error value.
-/

/-- A guild member, reduced to the only field the pagination loop inspects:
`Member.User.ID` (a snowflake, modelled as Nat). -/
structure Member where
  userId : Nat
deriving DecidableEq, Repr, Inhabited

/-- Result of running the pagination loop with a finite fuel budget.
`ok` is the `return mems, nil` path, `err` the `return mems, err` path, and
`outOfFuel` means the loop was still running when the budget ran out. -/
inductive RunResult (ε : Type) where
  | ok (mems : List Member)
  | err (mems : List Member) (e : ε)
  | outOfFuel (mems : List Member)
deriving DecidableEq, Repr

/-- The member sequence carried by a run result (in Go, the `mems` slice at
the corresponding return point, or at fuel exhaustion). -/
def RunResult.mems {ε : Type} : RunResult ε → List Member
  | .ok ms => ms
  | .err ms _ => ms
  | .outOfFuel ms => ms

/-- Whether the run reached one of the Go function's return statements. -/
def RunResult.finished {ε : Type} : RunResult ε → Bool
  | .ok _ => true
  | .err _ _ => true
  | .outOfFuel _ => false

/-- The single-page fetch primitive `c.membersAfter(guildID, after, fetch)`,
abstracted: given the cursor and the requested size it returns a page of
members or an error. -/
def FetchFn (ε : Type) : Type := Nat → Nat → Except ε (List Member)

/-- The page-size constant, `const hardLimit int = 1000` (member.go
line 40). -/
def hardLimit : Nat := 1000

/-- The per-iteration fetch size: Go initializes `fetch := uint(hardLimit)`
and, when `limit > 0`, lowers it to `limit` if `fetch > limit`
(member.go lines 44-48). -/
def fetchSize (limit : Nat) : Nat :=
  if 0 < limit then min hardLimit limit else hardLimit

/-- The remaining limit after an iteration: Go runs `limit -= fetch` only
when `limit > 0` (member.go line 49); since `fetch ≤ limit` there, Nat
subtraction is exact. -/
def nextLimit (limit : Nat) : Nat :=
  if 0 < limit then limit - fetchSize limit else limit

/-- The cursor update `after = mems[hardLimit-1].User.ID` (member.go
line 63): the element at fixed index 999 of the accumulated slice.  The Go
indexing is only reached under the guard `len(mems) >= hardLimit`, so the
default of `getD` is never used on reachable states. -/
def nextCursor (mems : List Member) : Nat :=
  (mems.getD (hardLimit - 1) default).userId

/-- The loop of Client.MembersAfter (member.go lines 44-64), with explicit
state: fuel, cursor `after`, remaining `limit`, accumulated `mems`, and the
log `calls` of (cursor, requested size) pairs, one per page call made.
The loop condition `limit > 0 || unlimited` is checked before every
iteration, as in Go's `for` statement. -/
def membersLoop {ε : Type} (f : FetchFn ε) (unlimited : Bool) :
    Nat → Nat → Nat → List Member → List (Nat × Nat) →
    RunResult ε × List (Nat × Nat)
  | 0, _, limit, mems, calls =>
    if 0 < limit ∨ unlimited = true then (.outOfFuel mems, calls)
    else (.ok mems, calls)
  | fuel + 1, after, limit, mems, calls =>
    if 0 < limit ∨ unlimited = true then
      let calls2 := calls ++ [(after, fetchSize limit)]
      match f after (fetchSize limit) with
      | .error e => (.err mems e, calls2)
      | .ok m =>
        let mems2 := mems ++ m
        if mems2.length < hardLimit then (.ok mems2, calls2)
        else membersLoop f unlimited fuel (nextCursor mems2) (nextLimit limit)
          mems2 calls2
    else (.ok mems, calls)

/-- Client.MembersAfter (member.go lines 35-67): `unlimited := limit == 0`,
then the loop starting from an empty accumulator.  Returns the run result
together with the log of page calls made. -/
def MembersAfter {ε : Type} (f : FetchFn ε) (after limit : Nat)
    (fuel : Nat) : RunResult ε × List (Nat × Nat) :=
  membersLoop f (limit == 0) fuel after limit [] []

/-- A backing source holding records with ids 1..n in ascending order: a
page fetch returns the records strictly after the cursor, at most the
requested count.  Used as the concrete server model of the spec's testable
properties. -/
def pageAfter (n after fetch : Nat) : List Member :=
  ((List.range' (after + 1) (n - after)).take fetch).map Member.mk

/-- The error-free fetch primitive backed by `pageAfter`. -/
def serverFetch (n : Nat) : FetchFn Unit :=
  fun after fetch => .ok (pageAfter n after fetch)

/-- Query parameters sent by the single-page primitive: `after` and
`limit` (member.go lines 79-85). -/
structure MemberQueryParams where
  after : Nat
  limit : Nat
deriving DecidableEq, Repr

/-- The query construction of the lowercase membersAfter primitive
(member.go lines 69-93): the switch leaves `limit == 0` unchanged, lowers
`limit > 1000` to 1000, and passes everything else through. -/
def membersAfterQuery (after limit : Nat) : MemberQueryParams :=
  let l := if limit = 0 then 0 else if limit > 1000 then 1000 else limit
  { after := after, limit := l }

/-- Go runtime faults the embedding makes explicit. -/
inductive GoRuntimeError where
  | nilPointerDeref
deriving DecidableEq, Repr

/-- BanData (member.go lines 288-293): DeleteDays is an option.Uint, a
pointer to uint, modelled as Option Nat (nil pointer = none); Reason an
option.String. -/
structure BanData where
  deleteDays : Option Nat
  reason : Option String
deriving DecidableEq, Repr

/-- The DeleteDays handling at the top of Client.Ban (member.go lines
299-302): `if *data.DeleteDays > 7 { *data.DeleteDays = 7 }` dereferences
the pointer unconditionally; a nil pointer faults, otherwise values above 7
are lowered to 7 and the updated data is what the request sends. -/
def banClampDeleteDays (data : BanData) : Except GoRuntimeError BanData :=
  match data.deleteDays with
  | none => .error .nilPointerDeref
  | some d =>
    .ok { data with deleteDays := some (if d > 7 then 7 else d) }

/-! ## Basic facts about the concrete backing source -/

/-- A page holds `min fetch (n - after)` records. -/
theorem pageAfter_length (n a f : Nat) :
    (pageAfter n a f).length = min f (n - a) := by
  simp [pageAfter]

/-- The record at index `i` of a page starting after cursor `a` has id
`a + 1 + i`. -/
theorem pageAfter_getD (n a f i : Nat) (d : Member) (h : i < min f (n - a)) :
    (pageAfter n a f).getD i d = ⟨a + 1 + i⟩ := by
  have hlen : i < (pageAfter n a f).length := by
    rw [pageAfter_length]; exact h
  rw [List.getD_eq_getElem _ _ hlen]
  simp only [pageAfter, List.getElem_map, List.getElem_take,
    List.getElem_range']
  simp [Nat.add_comm]

/-! ## Step lemmas for the pagination loop -/

/-- If the loop condition `limit > 0 || unlimited` is false, the loop
returns the accumulator at once, whatever the fuel. -/
theorem membersLoop_stop {ε : Type} (f : FetchFn ε) (u : Bool)
    (fuel after limit : Nat) (mems : List Member)
    (calls : List (Nat × Nat)) (h : ¬(0 < limit ∨ u = true)) :
    membersLoop f u fuel after limit mems calls = (.ok mems, calls) := by
  cases fuel <;> simp only [membersLoop, if_neg h]

/-- At fuel 0 with the loop condition holding, the run is unfinished. -/
theorem membersLoop_fuelZero {ε : Type} (f : FetchFn ε) (u : Bool)
    (after limit : Nat) (mems : List Member) (calls : List (Nat × Nat))
    (h : 0 < limit ∨ u = true) :
    membersLoop f u 0 after limit mems calls = (.outOfFuel mems, calls) := by
  simp only [membersLoop, if_pos h]

/-- An iteration whose page fetch fails returns the accumulator with the
error, logging exactly that one call. -/
theorem membersLoop_stepErr {ε : Type} (f : FetchFn ε) (u : Bool)
    (fuel after limit : Nat) (mems : List Member)
    (calls : List (Nat × Nat)) (e : ε) (h : 0 < limit ∨ u = true)
    (hf : f after (fetchSize limit) = .error e) :
    membersLoop f u (fuel + 1) after limit mems calls
      = (.err mems e, calls ++ [(after, fetchSize limit)]) := by
  simp only [membersLoop, if_pos h, hf]

/-- An iteration whose page fetch succeeds appends the page, then breaks
exactly when the total accumulated count is below `hardLimit`; otherwise it
recurses with the cursor recomputed from the accumulated slice. -/
theorem membersLoop_stepOk {ε : Type} (f : FetchFn ε) (u : Bool)
    (fuel after limit : Nat) (mems : List Member)
    (calls : List (Nat × Nat)) (m : List Member) (h : 0 < limit ∨ u = true)
    (hf : f after (fetchSize limit) = .ok m) :
    membersLoop f u (fuel + 1) after limit mems calls
      = if (mems ++ m).length < hardLimit then
          (.ok (mems ++ m), calls ++ [(after, fetchSize limit)])
        else
          membersLoop f u fuel (nextCursor (mems ++ m)) (nextLimit limit)
            (mems ++ m) (calls ++ [(after, fetchSize limit)]) := by
  simp only [membersLoop, if_pos h, hf]

/-- The call log only ever grows by appending: the log of a run extends
the log it started from. -/
theorem membersLoop_calls_extend {ε : Type} (f : FetchFn ε) (u : Bool) :
    ∀ (fuel after limit : Nat) (mems : List Member)
      (calls : List (Nat × Nat)),
      ∃ rest, (membersLoop f u fuel after limit mems calls).2
        = calls ++ rest := by
  intro fuel
  induction fuel with
  | zero =>
    intro after limit mems calls
    refine ⟨[], ?_⟩
    by_cases h : 0 < limit ∨ u = true
    · rw [membersLoop_fuelZero f u after limit mems calls h]; simp
    · rw [membersLoop_stop f u 0 after limit mems calls h]; simp
  | succ fuel ih =>
    intro after limit mems calls
    by_cases h : 0 < limit ∨ u = true
    · cases hf : f after (fetchSize limit) with
      | error e =>
        rw [membersLoop_stepErr f u fuel after limit mems calls e h hf]
        exact ⟨[(after, fetchSize limit)], rfl⟩
      | ok m =>
        rw [membersLoop_stepOk f u fuel after limit mems calls m h hf]
        by_cases hl : (mems ++ m).length < hardLimit
        · rw [if_pos hl]
          exact ⟨[(after, fetchSize limit)], rfl⟩
        · rw [if_neg hl]
          obtain ⟨rest, hrest⟩ := ih (nextCursor (mems ++ m))
            (nextLimit limit) (mems ++ m)
            (calls ++ [(after, fetchSize limit)])
          exact ⟨(after, fetchSize limit) :: rest, by rw [hrest]; simp⟩
    · rw [membersLoop_stop f u (fuel + 1) after limit mems calls h]
      exact ⟨[], by simp⟩

/-- Once the accumulator holds at least `hardLimit` records and the cursor
recomputed from it equals the cursor the loop is already at, an unlimited
run can never finish: each iteration refetches the same page, the
accumulator never shrinks, and the fixed-index cursor never moves.  The
call log grows by one entry per unit of fuel. -/
theorem membersLoop_stuck {ε : Type} (f : FetchFn ε) (after : Nat)
    (page : List Member) (hf : f after hardLimit = .ok page) :
    ∀ (fuel : Nat) (mems : List Member) (calls : List (Nat × Nat)),
      hardLimit ≤ mems.length → nextCursor mems = after →
      (membersLoop f true fuel after 0 mems calls).1.finished = false ∧
      (membersLoop f true fuel after 0 mems calls).2.length
        = calls.length + fuel := by
  intro fuel
  induction fuel with
  | zero =>
    intro mems calls _ _
    rw [membersLoop_fuelZero f true after 0 mems calls (Or.inr rfl)]
    exact ⟨rfl, by simp⟩
  | succ fuel ih =>
    intro mems calls hlen hcur
    have hfs : fetchSize 0 = hardLimit := by simp [fetchSize]
    have hf0 : f after (fetchSize 0) = .ok page := by rw [hfs]; exact hf
    rw [membersLoop_stepOk f true fuel after 0 mems calls page
      (Or.inr rfl) hf0]
    have hlen2 : ¬(mems ++ page).length < hardLimit := by
      rw [List.length_append]; omega
    rw [if_neg hlen2]
    have hcur2 : nextCursor (mems ++ page) = after := by
      rw [nextCursor, List.getD_append mems page default (hardLimit - 1)
        (by simp [hardLimit] at hlen ⊢; omega)]
      exact hcur
    have hnl : nextLimit 0 = 0 := by simp [nextLimit]
    rw [hcur2, hnl]
    have hih := ih (mems ++ page) (calls ++ [(after, fetchSize 0)])
      (by rw [List.length_append]; omega) hcur2
    refine ⟨hih.1, ?_⟩
    rw [hih.2, List.length_append]
    simp; omega

/-- Loop invariant behind the limit bound: in bounded mode, as long as
every successful page holds at most the requested number of records, the
accumulator can grow by at most the remaining limit. -/
theorem membersLoop_len_le {ε : Type} (f : FetchFn ε)
    (hf : ∀ a k m, f a k = .ok m → m.length ≤ k) :
    ∀ (fuel after limit : Nat) (mems : List Member)
      (calls : List (Nat × Nat)),
      ((membersLoop f false fuel after limit mems calls).1).mems.length
        ≤ mems.length + limit := by
  intro fuel
  induction fuel with
  | zero =>
    intro after limit mems calls
    by_cases h : 0 < limit ∨ (false : Bool) = true
    · rw [membersLoop_fuelZero f false after limit mems calls h]
      simp [RunResult.mems]
    · rw [membersLoop_stop f false 0 after limit mems calls h]
      simp [RunResult.mems]
  | succ fuel ih =>
    intro after limit mems calls
    by_cases h : 0 < limit ∨ (false : Bool) = true
    · have hlim : 0 < limit := by
        rcases h with h | h
        · exact h
        · exact absurd h (by simp)
      cases hfe : f after (fetchSize limit) with
      | error e =>
        rw [membersLoop_stepErr f false fuel after limit mems calls e h hfe]
        simp [RunResult.mems]
      | ok m =>
        rw [membersLoop_stepOk f false fuel after limit mems calls m h hfe]
        have hm : m.length ≤ fetchSize limit := hf _ _ _ hfe
        have hfs : fetchSize limit ≤ limit := by
          rw [fetchSize, if_pos hlim]; omega
        by_cases hl : (mems ++ m).length < hardLimit
        · rw [if_pos hl]
          simp only [RunResult.mems, List.length_append]
          omega
        · rw [if_neg hl]
          have hnl : nextLimit limit = limit - fetchSize limit := by
            rw [nextLimit, if_pos hlim]
          have := ih (nextCursor (mems ++ m)) (nextLimit limit) (mems ++ m)
            (calls ++ [(after, fetchSize limit)])
          rw [hnl] at this
          rw [List.length_append] at this
          rw [hnl]
          omega
    · rw [membersLoop_stop f false (fuel + 1) after limit mems calls h]
      simp [RunResult.mems]

/-! ## Claim theorems -/

/-- C4: after an iteration whose page fetch succeeds, the loop breaks
(returning with no further page call) exactly when the total accumulated
record count is strictly below the page size 1000 — the test is on the
accumulated slice, not on the page just received — and in particular, when
the very first page is partial, MembersAfter returns it after that single
call. -/
theorem membersAfter_break_iff_total_below_pageSize {ε : Type}
    (f : FetchFn ε) (after limit fuel : Nat) (m : List Member) :
    (∀ (u : Bool) (mems : List Member) (calls : List (Nat × Nat)),
        (0 < limit ∨ u = true) → f after (fetchSize limit) = .ok m →
        membersLoop f u (fuel + 1) after limit mems calls
          = if (mems ++ m).length < hardLimit then
              (.ok (mems ++ m), calls ++ [(after, fetchSize limit)])
            else
              membersLoop f u fuel (nextCursor (mems ++ m)) (nextLimit limit)
                (mems ++ m) (calls ++ [(after, fetchSize limit)])) ∧
    (f after (fetchSize limit) = .ok m → m.length < hardLimit →
        MembersAfter f after limit (fuel + 1)
          = (.ok m, [(after, fetchSize limit)])) := by
  constructor
  · intro u mems calls h hf
    exact membersLoop_stepOk f u fuel after limit mems calls m h hf
  · intro hf hm
    rw [MembersAfter]
    have hcond : 0 < limit ∨ (limit == 0) = true := by
      cases limit with
      | zero => exact Or.inr rfl
      | succ k => exact Or.inl (Nat.succ_pos k)
    rw [membersLoop_stepOk f (limit == 0) fuel after limit [] [] m hcond hf]
    rw [List.nil_append, if_pos hm, List.nil_append]

/-- Witness for C4 at a concrete input: a source of 3 records returns a
first page of 3 < 1000 records, so the loop breaks at once, and
MembersAfter makes exactly one call. -/
theorem membersAfter_break_iff_total_below_pageSize_witness :
    MembersAfter (serverFetch 3) 0 0 1
      = (.ok (pageAfter 3 0 1000), [(0, 1000)]) := by
  have h := (membersAfter_break_iff_total_below_pageSize
    (serverFetch 3) 0 0 0 (pageAfter 3 0 1000)).2 rfl (by decide)
  exact h

/-- C5: when the page fetch of an iteration fails, the loop immediately
returns that same error together with the records accumulated from the
previously successful pages — the accumulator is passed through unchanged,
not discarded — and the call log shows no call after the failing one. -/
theorem membersAfter_error_preserves_partial {ε : Type} (f : FetchFn ε)
    (u : Bool) (fuel after limit : Nat) (mems : List Member)
    (calls : List (Nat × Nat)) (e : ε) (h : 0 < limit ∨ u = true)
    (hf : f after (fetchSize limit) = .error e) :
    membersLoop f u (fuel + 1) after limit mems calls
      = (.err mems e, calls ++ [(after, fetchSize limit)]) :=
  membersLoop_stepErr f u fuel after limit mems calls e h hf

/-- The fetch primitive of the spec's mid-pagination-failure scenario: the
first page (cursor 0) succeeds with 1000 records, every later page fails. -/
def failAfterFirst : FetchFn String :=
  fun after _ =>
    if after == 0 then .ok (pageAfter 1500 0 1000) else .error "network down"

/-- Witness for C5: after a successful first page of 1000 records, the
failing second call makes MembersAfter return those 1000 records with the
error. -/
theorem membersAfter_error_preserves_partial_witness :
    membersLoop failAfterFirst true 1 1000 0 (pageAfter 1500 0 1000)
        [(0, 1000)]
      = (.err (pageAfter 1500 0 1000) "network down",
         [(0, 1000), (1000, 1000)]) := by
  have h := membersAfter_error_preserves_partial failAfterFirst true 0 1000 0
    (pageAfter 1500 0 1000) [(0, 1000)] "network down" (Or.inr rfl) rfl
  rw [h]
  rfl

/-- C9: the query parameters the single-page primitive sends carry the
cursor unchanged and the requested size clamped down to 1000: requests of
0 are sent as 0 (server-default semantics), 1 through 1000 pass through
unchanged, anything above 1000 is sent as 1000 — i.e. the sent limit is
min(requested, 1000). -/
theorem membersAfter_query_clamps_limit (after limit : Nat) :
    (membersAfterQuery after limit).after = after ∧
    (membersAfterQuery after limit).limit = min limit 1000 := by
  refine ⟨rfl, ?_⟩
  rw [membersAfterQuery]
  by_cases h0 : limit = 0
  · subst h0; simp
  · by_cases h1 : limit > 1000
    · simp only [if_neg h0, if_pos h1]
      omega
    · simp only [if_neg h0, if_neg h1]
      omega

/-- C10: Ban's handling of DeleteDays: a nil pointer (none) faults with a
nil-pointer dereference before any request is issued; a set pointer is
safe, values above 7 are lowered to 7 and 0 through 7 pass through
unchanged (the sent value is min(DeleteDays, 7)), with the reason left
untouched. -/
theorem ban_deref_and_clamp (data : BanData) :
    (data.deleteDays = none →
        banClampDeleteDays data = .error .nilPointerDeref) ∧
    (∀ d, data.deleteDays = some d →
        banClampDeleteDays data
          = .ok { deleteDays := some (min d 7), reason := data.reason }) := by
  obtain ⟨dd, r⟩ := data
  constructor
  · intro h
    simp only at h
    rw [h]
    rfl
  · intro d h
    simp only at h
    subst h
    simp only [banClampDeleteDays]
    have hmin : (if d > 7 then 7 else d) = min d 7 := by
      split <;> omega
    rw [hmin]

/-- Witness for C10: an unset DeleteDays faults; DeleteDays 9 is sent as
7 with the reason preserved. -/
theorem ban_deref_and_clamp_witness :
    banClampDeleteDays ⟨none, none⟩
        = .error GoRuntimeError.nilPointerDeref ∧
    banClampDeleteDays ⟨some 9, some "go away"⟩
      = .ok ⟨some 7, some "go away"⟩ := by
  constructor
  · exact (ban_deref_and_clamp ⟨none, none⟩).1 rfl
  · have h := (ban_deref_and_clamp ⟨some 9, some "go away"⟩).2 9 rfl
    simpa using h

/-- C6: for every fetch primitive in which a successful page holds at most
the requested number of records, and every cursor and nonzero limit, the
sequence MembersAfter produces never exceeds the limit; the bound holds as
a loop invariant (the accumulator can grow by at most the remaining limit
from any intermediate state) and so at every iteration, whatever the fuel
budget. -/
theorem membersAfter_length_le_limit {ε : Type} (f : FetchFn ε)
    (hf : ∀ a k m, f a k = .ok m → m.length ≤ k) :
    (∀ (fuel after limit : Nat) (mems : List Member)
        (calls : List (Nat × Nat)),
        ((membersLoop f false fuel after limit mems calls).1).mems.length
          ≤ mems.length + limit) ∧
    (∀ (after limit fuel : Nat), 0 < limit →
        ((MembersAfter f after limit fuel).1).mems.length ≤ limit) := by
  refine ⟨membersLoop_len_le f hf, ?_⟩
  intro after limit fuel hlim
  rw [MembersAfter]
  have hbeq : (limit == 0) = false := by
    cases limit with
    | zero => exact absurd hlim (by omega)
    | succ k => rfl
  rw [hbeq]
  have h := membersLoop_len_le f hf fuel after limit [] []
  simpa using h

/-- Witness for C6: a source of 5 records with limit 3 returns at most 3
records. -/
theorem membersAfter_length_le_limit_witness :
    ((MembersAfter (serverFetch 5) 0 3 2).1).mems.length ≤ 3 := by
  have hf : ∀ a k m, serverFetch 5 a k = Except.ok m → m.length ≤ k := by
    intro a k m hm
    simp only [serverFetch, Except.ok.injEq] at hm
    subst hm
    rw [pageAfter_length]
    omega
  exact (membersAfter_length_le_limit (serverFetch 5) hf).2 0 3 2 (by omega)

/-- C7: every iteration of the loop issues its page call with requested
size min(1000, remaining limit) when the remaining limit is nonzero and
1000 when it is 0 (unlimited); in particular a call with limit 50 against
a source of at least 50 records makes exactly one page request, of size
50, and returns the 50-record page. -/
theorem membersAfter_fetch_size_per_iteration {ε : Type} (f : FetchFn ε) :
    (∀ (u : Bool) (fuel after limit : Nat) (mems : List Member)
        (calls : List (Nat × Nat)), (0 < limit ∨ u = true) →
        ((membersLoop f u (fuel + 1) after limit mems calls).2)[calls.length]?
          = some (after,
              if 0 < limit then min hardLimit limit else hardLimit)) ∧
    (∀ (n fuel : Nat), 50 ≤ n →
        MembersAfter (serverFetch n) 0 50 (fuel + 1)
          = (.ok (pageAfter n 0 50), [(0, 50)])) := by
  have hfs : ∀ limit : Nat,
      fetchSize limit = if 0 < limit then min hardLimit limit else hardLimit :=
    fun _ => rfl
  constructor
  · intro u fuel after limit mems calls h
    rw [← hfs]
    cases hfe : f after (fetchSize limit) with
    | error e =>
      rw [membersLoop_stepErr f u fuel after limit mems calls e h hfe]
      exact List.getElem?_concat_length calls (after, fetchSize limit)
    | ok m =>
      rw [membersLoop_stepOk f u fuel after limit mems calls m h hfe]
      by_cases hl : (mems ++ m).length < hardLimit
      · rw [if_pos hl]
        exact List.getElem?_concat_length calls (after, fetchSize limit)
      · rw [if_neg hl]
        obtain ⟨rest, hrest⟩ := membersLoop_calls_extend f u fuel
          (nextCursor (mems ++ m)) (nextLimit limit) (mems ++ m)
          (calls ++ [(after, fetchSize limit)])
        rw [hrest, List.append_assoc]
        rw [List.getElem?_append_right (Nat.le_refl calls.length)]
        simp
  · intro n fuel h50
    rw [MembersAfter]
    have hcond : 0 < 50 ∨ ((50 : Nat) == 0) = true := Or.inl (by omega)
    have hfetch : fetchSize 50 = 50 := by decide
    have hpage : serverFetch n 0 (fetchSize 50) = .ok (pageAfter n 0 50) := by
      rw [hfetch]; rfl
    rw [membersLoop_stepOk (serverFetch n) ((50 : Nat) == 0) fuel 0 50 [] []
      (pageAfter n 0 50) hcond hpage]
    have hlen : ([] ++ pageAfter n 0 50).length < hardLimit := by
      rw [List.nil_append, pageAfter_length, hardLimit]
      omega
    rw [if_pos hlen, List.nil_append, List.nil_append, hfetch]

/-- Witness for C7: with a source of 60 records and limit 50, the first
(and only) logged call requests size 50, and the whole run returns the
50-record page from one call. -/
theorem membersAfter_fetch_size_per_iteration_witness :
    ((membersLoop (serverFetch 60) false 1 0 50 [] []).2)[0]?
        = some (0, 50) ∧
    MembersAfter (serverFetch 60) 0 50 1
      = (.ok (pageAfter 60 0 50), [(0, 50)]) := by
  constructor
  · have h := (membersAfter_fetch_size_per_iteration (serverFetch 60)).1
      false 0 0 50 [] [] (Or.inl (by omega))
    simpa [hardLimit] using h
  · exact (membersAfter_fetch_size_per_iteration (serverFetch 60)).2 60 0
      (by omega)

/-- C8: with limit 1500 over a source of 2000 records, the run makes
exactly the two page calls (cursor 0, size 1000) and (cursor 1000,
size 500), returns the 1500 records of those two pages, and stops there —
the remaining 500 records of the source are never fetched — whatever extra
fuel is available. -/
theorem membersAfter_bounded_two_pages (fuel : Nat) :
    MembersAfter (serverFetch 2000) 0 1500 (fuel + 2)
      = (.ok (pageAfter 2000 0 1000 ++ pageAfter 2000 1000 500),
         [(0, 1000), (1000, 500)]) ∧
    (pageAfter 2000 0 1000 ++ pageAfter 2000 1000 500).length = 1500 := by
  have hp1len : ([] ++ pageAfter 2000 0 1000).length = 1000 := by
    rw [List.nil_append, pageAfter_length]
    omega
  have hp2len : (pageAfter 2000 1000 500).length = 500 := by
    rw [pageAfter_length]
    omega
  constructor
  · rw [MembersAfter]
    have hfs1 : fetchSize 1500 = 1000 := by decide
    have hf1 : serverFetch 2000 0 (fetchSize 1500)
        = .ok (pageAfter 2000 0 1000) := by
      rw [hfs1]; rfl
    rw [membersLoop_stepOk (serverFetch 2000) ((1500 : Nat) == 0) (fuel + 1)
      0 1500 [] [] (pageAfter 2000 0 1000) (Or.inl (by omega)) hf1]
    rw [if_neg (by rw [hp1len]; norm_num [hardLimit])]
    have hcur1 : nextCursor ([] ++ pageAfter 2000 0 1000) = 1000 := by
      rw [List.nil_append, nextCursor, pageAfter_getD 2000 0 1000
        (hardLimit - 1) default (by norm_num [hardLimit])]
      norm_num [hardLimit]
    have hnl1 : nextLimit 1500 = 500 := by decide
    rw [hcur1, hnl1]
    have hfs2 : fetchSize 500 = 500 := by decide
    have hf2 : serverFetch 2000 1000 (fetchSize 500)
        = .ok (pageAfter 2000 1000 500) := by
      rw [hfs2]; rfl
    rw [membersLoop_stepOk (serverFetch 2000) ((1500 : Nat) == 0) fuel
      1000 500 ([] ++ pageAfter 2000 0 1000) ([] ++ [(0, fetchSize 1500)])
      (pageAfter 2000 1000 500) (Or.inl (by omega)) hf2]
    have hlen2 : (([] ++ pageAfter 2000 0 1000)
        ++ pageAfter 2000 1000 500).length = 1500 := by
      rw [List.length_append, hp1len, hp2len]
    rw [if_neg (by rw [hlen2]; norm_num [hardLimit])]
    have hnl2 : nextLimit 500 = 0 := by decide
    rw [hnl2]
    rw [membersLoop_stop _ _ _ _ _ _ _ (by decide)]
    rw [hfs1, hfs2]
    simp
  · have h := hp1len
    rw [List.nil_append] at h
    rw [List.length_append, h, hp2len]

/-- C1 names the cursor rule of member.go line 63; the code takes the id
of the record at fixed index 999 of the accumulated slice, not the last
record of the most recent page.  At this input the divergence is visible:
with limit 3000 over a source of 2500 records, the page appended by the
second call is pageAfter 2500 1000 1000, which holds 1000 records and ends
with id 2000 (its record at index 999), yet the third logged call is
issued with cursor 1000 — the id of the 1000th accumulated record, the
last record of the FIRST page — not 2000. -/
theorem membersAfter_cursor_reuses_first_page (fuel : Nat) :
    (MembersAfter (serverFetch 2500) 0 3000 (fuel + 3)).2
      = [(0, 1000), (1000, 1000), (1000, 1000)] ∧
    (pageAfter 2500 1000 1000).length = 1000 ∧
    (pageAfter 2500 1000 1000).getD 999 default = ⟨2000⟩ := by
  have hp1len : ([] ++ pageAfter 2500 0 1000).length = 1000 := by
    rw [List.nil_append, pageAfter_length]
    omega
  have hp2len : (pageAfter 2500 1000 1000).length = 1000 := by
    rw [pageAfter_length]
    omega
  have hp2last : (pageAfter 2500 1000 1000).getD 999 default = ⟨2000⟩ := by
    rw [pageAfter_getD 2500 1000 1000 999 default (by omega)]
  refine ⟨?_, hp2len, hp2last⟩
  rw [MembersAfter]
  have hfs1 : fetchSize 3000 = 1000 := by decide
  have hf1 : serverFetch 2500 0 (fetchSize 3000)
      = .ok (pageAfter 2500 0 1000) := by
    rw [hfs1]; rfl
  rw [membersLoop_stepOk (serverFetch 2500) ((3000 : Nat) == 0) (fuel + 2)
    0 3000 [] [] (pageAfter 2500 0 1000) (Or.inl (by omega)) hf1]
  rw [if_neg (by rw [hp1len]; norm_num [hardLimit])]
  have hcur1 : nextCursor ([] ++ pageAfter 2500 0 1000) = 1000 := by
    rw [List.nil_append, nextCursor, pageAfter_getD 2500 0 1000
      (hardLimit - 1) default (by norm_num [hardLimit])]
    norm_num [hardLimit]
  have hnl1 : nextLimit 3000 = 2000 := by decide
  rw [hcur1, hnl1]
  have hfs2 : fetchSize 2000 = 1000 := by decide
  have hf2 : serverFetch 2500 1000 (fetchSize 2000)
      = .ok (pageAfter 2500 1000 1000) := by
    rw [hfs2]; rfl
  rw [membersLoop_stepOk (serverFetch 2500) ((3000 : Nat) == 0) (fuel + 1)
    1000 2000 ([] ++ pageAfter 2500 0 1000) ([] ++ [(0, fetchSize 3000)])
    (pageAfter 2500 1000 1000) (Or.inl (by omega)) hf2]
  have hlen2 : (([] ++ pageAfter 2500 0 1000)
      ++ pageAfter 2500 1000 1000).length = 2000 := by
    rw [List.length_append, hp1len, hp2len]
  rw [if_neg (by rw [hlen2]; norm_num [hardLimit])]
  have hcur2 : nextCursor (([] ++ pageAfter 2500 0 1000)
      ++ pageAfter 2500 1000 1000) = 1000 := by
    rw [nextCursor, List.getD_append _ _ _ _
      (by rw [hp1len]; norm_num [hardLimit])]
    exact hcur1
  have hnl2 : nextLimit 2000 = 1000 := by decide
  rw [hcur2, hnl2]
  have hfs3 : fetchSize 1000 = 1000 := by decide
  have hf3 : serverFetch 2500 1000 (fetchSize 1000)
      = .ok (pageAfter 2500 1000 1000) := by
    rw [hfs3]; rfl
  rw [membersLoop_stepOk (serverFetch 2500) ((3000 : Nat) == 0) fuel
    1000 1000 (([] ++ pageAfter 2500 0 1000) ++ pageAfter 2500 1000 1000)
    (([] ++ [(0, fetchSize 3000)]) ++ [(1000, fetchSize 2000)])
    (pageAfter 2500 1000 1000) (Or.inl (by omega)) hf3]
  have hlen3 : ((([] ++ pageAfter 2500 0 1000) ++ pageAfter 2500 1000 1000)
      ++ pageAfter 2500 1000 1000).length = 3000 := by
    rw [List.length_append, hlen2, hp2len]
  rw [if_neg (by rw [hlen3]; norm_num [hardLimit])]
  have hnl3 : nextLimit 1000 = 0 := by decide
  rw [hnl3]
  rw [membersLoop_stop _ _ _ _ _ _ _ (by decide)]
  rw [hfs1, hfs2, hfs3]
  simp

/-- Shared divergence argument: against a source of at least 1000 records
and limit 0 (unlimited), the first page fills the accumulator to exactly
1000 records, the cursor becomes the id of record 1000, and from then on
the fixed-index cursor of member.go line 63 never moves, so the loop never
satisfies its stop check again: the run is unfinished at every fuel budget
and logs one page call per unit of fuel. -/
theorem membersAfter_unlimited_stuck (n : Nat) (hn : 1000 ≤ n) (fuel : Nat) :
    (MembersAfter (serverFetch n) 0 0 fuel).1.finished = false ∧
    (MembersAfter (serverFetch n) 0 0 fuel).2.length = fuel := by
  have hu : ((0 : Nat) == 0) = true := rfl
  cases fuel with
  | zero =>
    rw [MembersAfter, hu,
      membersLoop_fuelZero _ _ _ _ _ _ (Or.inr rfl)]
    exact ⟨rfl, rfl⟩
  | succ fuel =>
    rw [MembersAfter, hu]
    have hf1 : serverFetch n 0 (fetchSize 0)
        = .ok (pageAfter n 0 hardLimit) := rfl
    rw [membersLoop_stepOk (serverFetch n) true fuel 0 0 [] []
      (pageAfter n 0 hardLimit) (Or.inr rfl) hf1]
    have hlen1 : ([] ++ pageAfter n 0 hardLimit).length = 1000 := by
      rw [List.nil_append, pageAfter_length, hardLimit]
      omega
    rw [if_neg (by rw [hlen1]; norm_num [hardLimit])]
    have hcur1 : nextCursor ([] ++ pageAfter n 0 hardLimit) = 1000 := by
      rw [List.nil_append, nextCursor, pageAfter_getD n 0 hardLimit
        (hardLimit - 1) default (by norm_num [hardLimit]; omega)]
      norm_num [hardLimit]
    have hnl : nextLimit 0 = 0 := rfl
    rw [hcur1, hnl]
    have hstuck := membersLoop_stuck (serverFetch n) 1000
      (pageAfter n 1000 hardLimit) rfl fuel ([] ++ pageAfter n 0 hardLimit)
      ([] ++ [(0, fetchSize 0)]) (by rw [hlen1]; norm_num [hardLimit]) hcur1
    refine ⟨hstuck.1, ?_⟩
    rw [hstuck.2]
    simp
    omega

/-- C2 claims that against a source of 1500 records, MembersAfter with
limit 0 makes exactly 2 page calls and returns the 1500 records.  The code
does not: the second page leaves 1500 ≥ 1000 accumulated records, so the
stop check never fires again and the stale cursor refetches the second
page forever — the run is unfinished at every fuel budget, logging one
call per unit of fuel (so strictly more than 2 calls from fuel 3 on). -/
theorem membersAfter_unlimited_1500_diverges (fuel : Nat) :
    (MembersAfter (serverFetch 1500) 0 0 fuel).1.finished = false ∧
    (MembersAfter (serverFetch 1500) 0 0 fuel).2.length = fuel :=
  membersAfter_unlimited_stuck 1500 (by omega) fuel

/-- C3 claims that against a source of exactly 1000 records, MembersAfter
with limit 0 stops after a second, empty call — total 2 calls.  The code
does not: after the empty second page the accumulator still holds
1000 records, `len(mems) < 1000` is still false, and the loop keeps
issuing the same empty fetch forever — the run is unfinished at every fuel
budget, logging one call per unit of fuel. -/
theorem membersAfter_exact_1000_diverges (fuel : Nat) :
    (MembersAfter (serverFetch 1000) 0 0 fuel).1.finished = false ∧
    (MembersAfter (serverFetch 1000) 0 0 fuel).2.length = fuel :=
  membersAfter_unlimited_stuck 1000 (by omega) fuel
